import Mathlib

/-
Verification development for the LinkedIn profile lookup service
(single source file `__main__.py`).

The program is embedded shallowly: Python strings become `List Char`
(abbreviated `Str`), Python functions become Lean functions, the one
fallible operation (URL parsing, which can raise) returns `Option`, and
the entrypoint's observable side effects (reading credentials from the
environment, issuing the HTTP call) are made explicit as data.

Notes on fidelity of the embedding:
  * Python `str.lower` / `re.IGNORECASE` case folding is modelled by the
    ASCII `Char.toLower`.  The source only compares against ASCII
    letters, so the difference is confined to exotic Unicode characters
    (for example the Kelvin sign).
  * The Python regex class `\s` and `str.strip()` are modelled by the
    ASCII whitespace characters (space, tab, newline, carriage return,
    vertical tab, form feed).
  * `urllib.parse.urlparse` is modelled after the CPython implementation
    (`urlsplit` followed by the params split): removal of the unsafe
    bytes tab/CR/LF, stripping of leading C0-control-or-space
    characters, scheme detection, netloc extraction after `//`, the
    IPv6-bracket validity check (the one way the call can raise, hence
    the `Option`), fragment split before query split, and the
    `;`-params split for schemes that use params.  The non-ASCII
    netloc check of `_checknetloc` is omitted (it only concerns
    non-ASCII hosts, which no claim touches).
-/

abbrev Str := List Char

/-- Python's ASCII whitespace characters: the characters matched by the
regex class `\s` (and stripped by `str.strip()`), restricted to ASCII. -/
def isPySpace (c : Char) : Bool :=
  c == ' ' || c == '\t' || c == '\n' || c == '\r' || c == '\x0b' || c == '\x0c'

/-- Python `str.strip()`: drop whitespace from both ends. -/
def pyStrip (s : Str) : Str :=
  ((s.dropWhile isPySpace).reverse.dropWhile isPySpace).reverse

/-- Embedding of `re.sub(r"\s+", " ", s)`: every maximal run of
whitespace characters is replaced by a single space.  (Folding from the
right, a whitespace character is dropped when the text to its right
already begins with the space standing for the rest of its run, so each
maximal run contributes exactly one space.) -/
def collapseWsRuns (s : Str) : Str :=
  s.foldr
    (fun c acc =>
      if isPySpace c then
        match acc with
        | ' ' :: _ => acc
        | _ => ' ' :: acc
      else c :: acc)
    []

/-- Characters kept by `re.sub(r"[^a-z0-9\s]", " ", s)` (other than
whitespace): lowercase ASCII letters and digits. -/
def isLowerAlnum (c : Char) : Bool :=
  ('a' ≤ c && c ≤ 'z') || ('0' ≤ c && c ≤ '9')

/-- Embedding of `re.sub(r"[^a-z0-9\s]", " ", s)`. -/
def blankNonAlnum (s : Str) : Str :=
  s.map fun c => if isLowerAlnum c || isPySpace c then c else ' '

/-- Source `_normalize_text`: lower-case, replace every character that is
not a lowercase letter, digit or whitespace by a space, collapse
whitespace runs, strip. -/
def _normalize_text (s : Str) : Str :=
  pyStrip (collapseWsRuns (blankNonAlnum (s.map Char.toLower)))

/-- Python's substring test `needle in hay` on strings. -/
def isSubstrOf (needle hay : Str) : Bool := decide (needle <:+: hay)

/-- Source `title_contains_full_name`. -/
def title_contains_full_name (title full_name : Str) : Bool :=
  isSubstrOf (_normalize_text full_name) (_normalize_text title)

/-- Source dataclass `PersonInput` (optional fields are `Optional[str]`,
defaulting to `None` at every construction site in scope). -/
structure PersonInput where
  full_name : Str
  email : Option Str
  location : Option Str
  title_or_role : Option Str
  company_or_university : Option Str
deriving DecidableEq

/-- Source dataclass `SearchResult`. -/
structure SearchResult where
  title : Str
  link : Str
  snippet : Str
deriving DecidableEq

/-- The double-quote character used by the f-strings in the query
builder. -/
def dquote : Char := '"'

/-- The f-string `f"\"{t}\""`: wrap a term in double quotes. -/
def quoteTerm (s : Str) : Str := dquote :: (s ++ [dquote])

/-- The fixed site-restriction term of `build_query`. -/
def siteTerm : Str := "site:linkedin.com/in".toList

/-- The fixed, ordered negative path-exclusion terms of `build_query`. -/
def negativeTerms : List Str :=
  [r"-inurl:/company/".toList, r"-inurl:/posts/".toList,
   r"-inurl:/jobs/".toList, r"-inurl:/pulse/".toList,
   r"-inurl:/learning/".toList, r"-inurl:/groups/".toList,
   r"-inurl:/directory/".toList, r"-inurl:/school/".toList]

/-- Body of the list comprehension in `_quoted_optional_terms`: the
Python truthiness guard `t and t.strip()` (present, non-empty, and
non-blank after trimming) applied to one optional field. -/
def quotedOptionalGuard : Option Str → Option Str
  | some t =>
    if !t.isEmpty && !(pyStrip t).isEmpty then some (quoteTerm (pyStrip t))
    else none
  | none => none

/-- Source `_quoted_optional_terms`: the list comprehension over the
tuple `(company_or_university, title_or_role, location)`. -/
def _quoted_optional_terms (p : PersonInput) : List Str :=
  [p.company_or_university, p.title_or_role, p.location].filterMap
    quotedOptionalGuard

/-- The conditional email term: `if p.email: parts.append(p.email.strip())`. -/
def emailTerm (p : PersonInput) : List Str :=
  match p.email with
  | some e => if !e.isEmpty then [pyStrip e] else []
  | none => []

/-- The `parts` list assembled by `build_query`, including the trailing
conditional email term. -/
def buildQueryParts (p : PersonInput) : List Str :=
  ([siteTerm, quoteTerm (pyStrip p.full_name)]
      ++ _quoted_optional_terms p ++ negativeTerms)
    ++ emailTerm p

/-- Source `build_query`: join the parts with single spaces, collapse
whitespace runs, strip (`re.sub(r"\s+", " ", " ".join(parts)).strip()`). -/
def build_query (p : PersonInput) : Str :=
  pyStrip (collapseWsRuns (List.intercalate [' '] (buildQueryParts p)))

/-- First-occurrence split of a list at a separator character:
`some (before, after)` when the separator occurs, `none` otherwise
(Python `s.split(sep, 1)` guarded by `sep in s`, or `s.find(sep)`). -/
def splitFirst (sep : Char) : Str → Option (Str × Str)
  | [] => none
  | c :: rest =>
    if c = sep then some ([], rest)
    else (splitFirst sep rest).map fun ab => (c :: ab.1, ab.2)

/-- Split at the first occurrence of `sep`, keeping everything when the
separator is absent (the `if sep in url: url, x = url.split(sep, 1)`
pattern of `urlsplit`). -/
def splitOpt (sep : Char) (l : Str) : Str × Str :=
  match splitFirst sep l with
  | some ab => ab
  | none => (l, [])

/-- WHATWG "C0 control or space" characters, lstripped by `urlsplit`. -/
def isC0OrSpace (c : Char) : Bool := c.toNat ≤ 32

/-- CPython `_UNSAFE_URL_BYTES_TO_REMOVE`: tab, carriage return and
newline are deleted from the URL before splitting. -/
def isUnsafeUrlByte (c : Char) : Bool := c == '\t' || c == '\r' || c == '\n'

/-- The sanitisation `urlsplit` applies before splitting. -/
def cleanUrl (url : Str) : Str :=
  (url.dropWhile isC0OrSpace).filter fun c => !isUnsafeUrlByte c

/-- CPython `scheme_chars`: ASCII letters, digits and `+`, `-`, `.`. -/
def isSchemeChar (c : Char) : Bool :=
  c.isAlpha || c.isDigit || c == '+' || c == '-' || c == '.'

/-- Scheme detection of `urlsplit`: when the text before the first `:`
is non-empty, starts with an ASCII letter and consists of scheme
characters, it is the (lower-cased) scheme; otherwise there is no
scheme and the URL is left intact. -/
def splitScheme (url : Str) : Str × Str :=
  match splitFirst ':' url with
  | none => ([], url)
  | some ab =>
    match ab.1 with
    | [] => ([], url)
    | c0 :: cs =>
      if c0.isAlpha && (c0 :: cs).all isSchemeChar then
        ((c0 :: cs).map Char.toLower, ab.2)
      else ([], url)

/-- Characters that may occur inside a netloc (CPython `_splitnetloc`
scans up to the first of `/`, `?`, `#`). -/
def isNetlocChar (c : Char) : Bool := !(c == '/' || c == '?' || c == '#')

/-- Netloc extraction: only when the remaining URL starts with `//`. -/
def splitNetlocPart : Str → Str × Str
  | '/' :: '/' :: rest => (rest.takeWhile isNetlocChar, rest.dropWhile isNetlocChar)
  | u => ([], u)

/-- Split result of `urlsplit`: scheme, netloc, path, query, fragment. -/
structure SplitUrl where
  scheme : Str
  netloc : Str
  path : Str
  query : Str
  fragment : Str
deriving DecidableEq

/-- Tail of `urlsplit` once scheme and netloc are separated: the IPv6
bracket check (the only raising path, modelled as `none`), then the
fragment split followed by the query split. -/
def urlsplitSplits (scheme netloc url3 : Str) : Option SplitUrl :=
  if ('[' ∈ netloc ∧ ']' ∉ netloc) ∨ (']' ∈ netloc ∧ '[' ∉ netloc) then none
  else
    some { scheme := scheme
           netloc := netloc
           path := (splitOpt '?' (splitOpt '#' url3).1).1
           query := (splitOpt '?' (splitOpt '#' url3).1).2
           fragment := (splitOpt '#' url3).2 }

/-- CPython `urllib.parse.urlsplit`. -/
def pyUrlsplit (url : Str) : Option SplitUrl :=
  urlsplitSplits (splitScheme (cleanUrl url)).1
    (splitNetlocPart (splitScheme (cleanUrl url)).2).1
    (splitNetlocPart (splitScheme (cleanUrl url)).2).2

/-- CPython `uses_params`: the schemes for which `urlparse` splits the
`;params` suffix off the last path segment. -/
def usesParams : List Str :=
  [[], r"ftp".toList, r"hdl".toList, r"prospero".toList, r"http".toList,
   r"imap".toList, r"https".toList, r"shttp".toList, r"rtsp".toList,
   r"rtspu".toList, r"sip".toList, r"sips".toList, r"mms".toList,
   r"sftp".toList, r"tel".toList]

/-- CPython `_splitparams`: split at the first `;` occurring in the last
path segment (after the last `/`), or anywhere when the path has no
`/`. -/
def splitParams (url : Str) : Str × Str :=
  if '/' ∈ url then
    match splitFirst ';' (url.reverse.takeWhile fun c => c ≠ '/').reverse with
    | none => (url, [])
    | some ab => ((url.reverse.dropWhile fun c => c ≠ '/').reverse ++ ab.1, ab.2)
  else
    match splitFirst ';' url with
    | none => (url, [])
    | some ab => ab

/-- Parse result of `urlparse`: `urlsplit` plus the params component. -/
structure UrlParts where
  scheme : Str
  netloc : Str
  path : Str
  params : Str
  query : Str
  fragment : Str
deriving DecidableEq

/-- CPython `urllib.parse.urlparse`. -/
def pyUrlparse (url : Str) : Option UrlParts :=
  match pyUrlsplit url with
  | none => none
  | some s =>
    if s.scheme ∈ usesParams ∧ ';' ∈ s.path then
      some { scheme := s.scheme, netloc := s.netloc
             path := (splitParams s.path).1, params := (splitParams s.path).2
             query := s.query, fragment := s.fragment }
    else
      some { scheme := s.scheme, netloc := s.netloc, path := s.path
             params := [], query := s.query, fragment := s.fragment }

/-- Helper for the profile-path regex: the suffix after `/in/` or
`/pub/` must match `[^/]+/?$` — a non-empty slash-free segment followed
by nothing or a single `/`. -/
def segmentOk (rest : Str) : Bool :=
  !(rest.takeWhile fun c => c ≠ '/').isEmpty &&
    ((rest.dropWhile fun c => c ≠ '/') == [] ||
      (rest.dropWhile fun c => c ≠ '/') == ['/'])

/-- Source `_PROFILE_RE.match(path)`: the anchored, case-insensitive
regex `^/(in|pub)/[^/]+/?$`.  The first path segment is read off with
`takeWhile`; it matches `in` or `pub` up to ASCII case. -/
def profilePathMatch : Str → Bool
  | '/' :: rest =>
    ((rest.takeWhile fun c => c ≠ '/').map Char.toLower == r"in".toList ||
      (rest.takeWhile fun c => c ≠ '/').map Char.toLower == r"pub".toList) &&
    (match rest.dropWhile fun c => c ≠ '/' with
     | '/' :: tail => segmentOk tail
     | _ => false)
  | _ => false

/-- Embedding of `re.sub(r"/+$", "", s)`: remove every trailing slash. -/
def rstripSlashes (s : Str) : Str :=
  (s.reverse.dropWhile fun c => c == '/').reverse

/-- The substring the netloc is required to contain. -/
def linkedinDomain : Str := "linkedin.com".toList

/-- The canonical scheme-plus-host prefix produced by
`urlunparse(("https", "www.linkedin.com", path, "", "", ""))`; since
params, query and fragment are empty and the path always starts with
`/`, `urlunparse` reduces to this concatenation in front of the path. -/
def httpsRoot : Str := "https://www.linkedin.com".toList

/-- The checks and rebuild of `normalize_linkedin_profile_url` on a
successfully parsed URL: require the netloc to contain `linkedin.com`,
require the path to match the profile regex, then rebuild the URL with
forced scheme and host and exactly one trailing slash. -/
def normalizeChecks (u : UrlParts) : Option Str :=
  if !(isSubstrOf linkedinDomain u.netloc) then none
  else if !(profilePathMatch u.path) then none
  else some (httpsRoot ++ (rstripSlashes u.path ++ ['/']))

/-- Source `normalize_linkedin_profile_url`: parse (a raising parse is
`None`), then filter and rebuild. -/
def normalize_linkedin_profile_url (url : Str) : Option Str :=
  match pyUrlparse url with
  | none => none
  | some u => normalizeChecks u

/-- The per-result body of the loop in `find_linkedin_profile_urls`:
skip results whose title does not contain the name, normalize the link,
skip a falsy (`None` or empty) normalized URL, otherwise keep it. -/
def keepResult (p : PersonInput) (r : SearchResult) : Option Str :=
  if !(title_contains_full_name r.title p.full_name) then none
  else
    match normalize_linkedin_profile_url r.link with
    | none => none
    | some url => if url.isEmpty then none else some url

/-- The deduplication loop of `find_linkedin_profile_urls`: a `seen` set
(modelled as the list of URLs added so far) and an `ordered` output. -/
def dedupAux (seen : List Str) : List Str → List Str
  | [] => []
  | u :: rest =>
    if u ∈ seen then dedupAux seen rest
    else u :: dedupAux (u :: seen) rest

/-- Deduplicate while preserving order, starting from an empty set. -/
def dedupPreserve (l : List Str) : List Str := dedupAux [] l

/-- The filtering part of `find_linkedin_profile_urls` applied to an
already-retrieved result list: build `scored_urls`, then deduplicate. -/
def filterResults (p : PersonInput) (results : List SearchResult) : List Str :=
  dedupPreserve (results.filterMap (keepResult p))

/-- Source `find_linkedin_profile_urls`, abstracted over the provider's
`search` operation (query string to ordered result list). -/
def find_linkedin_profile_urls (p : PersonInput)
    (search : Str → List SearchResult) : List Str :=
  filterResults p (search (build_query p))

/-- JSON values, as produced by `resp.json()`. -/
inductive Json where
  | null : Json
  | bool : Bool → Json
  | num : Int → Json
  | str : Str → Json
  | arr : List Json → Json
  | obj : List (Str × Json) → Json

/-- Python `dict.get(key)` on a JSON object's field list. -/
def jsonLookup (key : Str) : List (Str × Json) → Option Json
  | [] => none
  | kv :: rest => if kv.1 = key then some kv.2 else jsonLookup key rest

/-- Python truthiness of a JSON-decoded value. -/
def pyFalsyJson : Json → Bool
  | Json.null => true
  | Json.bool b => !b
  | Json.num n => n == 0
  | Json.str s => s.isEmpty
  | Json.arr l => l.isEmpty
  | Json.obj l => l.isEmpty

/-- The left bracket and brace characters, by code point (kept out of
string literals). -/
def lbrackC : Char := Char.ofNat 91
def rbrackC : Char := Char.ofNat 93
def lbraceC : Char := Char.ofNat 123
def rbraceC : Char := Char.ofNat 125
def squoteC : Char := Char.ofNat 39

mutual

/-- Python `repr` of a JSON value occurring inside a container
(approximate: string escaping inside containers is not modelled — no
claim depends on it). -/
def pyReprInner : Json → Str
  | Json.str s => squoteC :: s ++ [squoteC]
  | Json.null => r"None".toList
  | Json.bool true => r"True".toList
  | Json.bool false => r"False".toList
  | Json.num n => (toString n).toList
  | Json.arr xs => lbrackC :: pyReprList xs ++ [rbrackC]
  | Json.obj kvs => lbraceC :: pyReprKVs kvs ++ [rbraceC]

/-- Comma-separated `repr` rendering of a JSON array's elements. -/
def pyReprList : List Json → Str
  | [] => []
  | [x] => pyReprInner x
  | x :: xs => pyReprInner x ++ (',' :: ' ' :: pyReprList xs)

/-- Comma-separated `repr` rendering of a JSON object's fields. -/
def pyReprKVs : List (Str × Json) → Str
  | [] => []
  | [kv] => (squoteC :: kv.1 ++ [squoteC]) ++ (':' :: ' ' :: pyReprInner kv.2)
  | kv :: rest =>
    (squoteC :: kv.1 ++ [squoteC]) ++ (':' :: ' ' :: pyReprInner kv.2)
      ++ (',' :: ' ' :: pyReprKVs rest)

end

/-- Python `str()` of a JSON-decoded value, used by
`str(it.get("title", ""))`.  Scalars are rendered exactly as Python
does; containers via the approximate `repr` above. -/
def pyStr : Json → Str
  | Json.str s => s
  | Json.null => r"None".toList
  | Json.bool true => r"True".toList
  | Json.bool false => r"False".toList
  | Json.num n => (toString n).toList
  | Json.arr xs => lbrackC :: pyReprList xs ++ [rbrackC]
  | Json.obj kvs => lbraceC :: pyReprKVs kvs ++ [rbraceC]

/-- Key constants for the provider's response format. -/
def itemsKey : Str := r"items".toList
def titleKey : Str := r"title".toList
def linkKey : Str := r"link".toList
def snippetKey : Str := r"snippet".toList

/-- One result item: `SearchResult(title=str(it.get("title", "")), ...)`;
each absent field defaults to the empty string. -/
def parseItem (it : List (Str × Json)) : SearchResult :=
  { title := pyStr ((jsonLookup titleKey it).getD (Json.str []))
    link := pyStr ((jsonLookup linkKey it).getD (Json.str []))
    snippet := pyStr ((jsonLookup snippetKey it).getD (Json.str [])) }

/-- Error messages for the exceptions Python would raise when iterating
a non-list `items` value or calling `.get` on a non-dict item. -/
def notIterableMsg : Str := r"TypeError: items object is not iterable".toList
def noGetAttrMsg : Str := r"AttributeError: item has no attribute get".toList

/-- The response-parsing tail of `GoogleCustomSearchProvider.search`:
`items = data.get("items", []) or []` followed by the `SearchResult`
comprehension.  `data` is the parsed JSON body, assumed to be an object
(its field list).  Iterating a non-list or reading fields of a non-dict
item raises, modelled as `Except.error`. -/
def searchParseBody (data : List (Str × Json)) :
    Except Str (List SearchResult) :=
  match
    (if pyFalsyJson ((jsonLookup itemsKey data).getD (Json.arr [])) then
      Json.arr []
    else (jsonLookup itemsKey data).getD (Json.arr [])) with
  | Json.arr elems =>
    elems.mapM fun e =>
      match e with
      | Json.obj fields => Except.ok (parseItem fields)
      | _ => Except.error noGetAttrMsg
  | _ => Except.error notIterableMsg

/-- Request parameter value: the entrypoint distinguishes string values
from everything else via `isinstance(full_name, str)`; a non-string
value only matters through its truthiness. -/
inductive PValue where
  | str : Str → PValue
  | nonStr : Bool → PValue
deriving DecidableEq

/-- The request dictionary `params` of `main`, with the fields the
entrypoint reads.  The four optional attributes are passed through to
`PersonInput` unchanged, so they are modelled at type `Option Str`. -/
structure Params where
  full_name : Option PValue
  email : Option Str
  location : Option Str
  title_or_role : Option Str
  company_or_university : Option Str
deriving DecidableEq

/-- Process environment: the two credentials read by
`GoogleCustomSearchProvider.__init__`. -/
structure Env where
  google_api_key : Option Str
  google_cx : Option Str
deriving DecidableEq

/-- Python truthiness of `os.environ.get(...)`: set and non-empty. -/
def envTruthy : Option Str → Bool
  | none => false
  | some s => !s.isEmpty

/-- Observable interactions with the outside world during one
invocation of `main`: whether the credentials were read from the
environment (provider construction) and whether the search HTTP call
was issued. -/
structure Effects where
  credentialRead : Bool
  httpCalled : Bool
deriving DecidableEq

/-- The response dictionary of `main`: the 400 and 500 error bodies
carry `statusCode` and `body`; the success body carries
`linkedin_profile_url` (`urls[0] if urls else None`) and `all_urls`
and no status code. -/
inductive MainResponse where
  | error : Nat → Str → MainResponse
  | success : Option Str → List Str → MainResponse
deriving DecidableEq

/-- Body of the 400 response. -/
def fullNameRequiredMsg : Str := r"full_name is required".toList

/-- Message of the `RuntimeError` raised when a credential is absent. -/
def credsMissingMsg : Str := r"GOOGLE_API_KEY and GOOGLE_CX must be set".toList

/-- The `PersonInput` constructed by `main` once `full_name` passed
validation. -/
def personOf (params : Params) (s : Str) : PersonInput :=
  { full_name := s
    email := params.email
    location := params.location
    title_or_role := params.title_or_role
    company_or_university := params.company_or_university }

/-- Source `main`.  The HTTP search call is abstracted as
`http : Str → Except Str (List SearchResult)` (query to result list or
exception text); the returned `Effects` records which external
interactions happened.  Control flow follows the source: validate
`full_name` (`not full_name or not isinstance(full_name, str)`), then
inside `try`: construct the provider (credential read; `RuntimeError`
when a credential is falsy), run the search, filter; any exception
becomes a 500 with `str(e)` as body. -/
def mainEntry (params : Params) (env : Env)
    (http : Str → Except Str (List SearchResult)) : MainResponse × Effects :=
  match params.full_name with
  | some (PValue.str s) =>
    if s.isEmpty then (MainResponse.error 400 fullNameRequiredMsg, ⟨false, false⟩)
    else
      if envTruthy env.google_api_key && envTruthy env.google_cx then
        match http (build_query (personOf params s)) with
        | Except.ok results =>
          (MainResponse.success (filterResults (personOf params s) results).head?
            (filterResults (personOf params s) results), ⟨true, true⟩)
        | Except.error e => (MainResponse.error 500 e, ⟨true, true⟩)
      else (MainResponse.error 500 credsMissingMsg, ⟨true, false⟩)
  | _ => (MainResponse.error 400 fullNameRequiredMsg, ⟨false, false⟩)

/-- The canonical scheme string and host, as components. -/
def httpsScheme : Str := r"https".toList
def wwwHost : Str := r"www.linkedin.com".toList

/-- Shared tail check for the canonical path shape: a non-empty
slash-free slug followed by exactly one `/`. -/
def exactProfileTail (rest : Str) : Bool :=
  !(rest.takeWhile fun c => c ≠ '/').isEmpty &&
    ((rest.dropWhile fun c => c ≠ '/') == ['/'])

/-- Canonical profile-path shape with the `in`/`pub` segment compared up
to ASCII case: `/(in|pub)/<slug>/` with exactly one trailing slash. -/
def canonicalPathCI : Str → Bool
  | '/' :: rest =>
    ((rest.takeWhile fun c => c ≠ '/').map Char.toLower == r"in".toList ||
      (rest.takeWhile fun c => c ≠ '/').map Char.toLower == r"pub".toList) &&
    (match rest.dropWhile fun c => c ≠ '/' with
     | '/' :: tail => exactProfileTail tail
     | _ => false)
  | _ => false

/-- Modelled from the spec's words: the canonical profile-URL path shape
`/(in|pub)/<single-segment>/` with exactly one trailing slash, reading
the regex literally, i.e. case-sensitively. -/
def specCanonicalPath : Str → Bool
  | '/' :: rest =>
    ((rest.takeWhile fun c => c ≠ '/') == r"in".toList ||
      (rest.takeWhile fun c => c ≠ '/') == r"pub".toList) &&
    (match rest.dropWhile fun c => c ≠ '/' with
     | '/' :: tail => exactProfileTail tail
     | _ => false)
  | _ => false

/-- Modelled from the spec's words: the acceptance regex
`/(in|pub)/<single-segment>/?` of the link filter, read literally
(case-sensitively). -/
def specProfilePathMatch : Str → Bool
  | '/' :: rest =>
    ((rest.takeWhile fun c => c ≠ '/') == r"in".toList ||
      (rest.takeWhile fun c => c ≠ '/') == r"pub".toList) &&
    (match rest.dropWhile fun c => c ≠ '/' with
     | '/' :: tail => segmentOk tail
     | _ => false)
  | _ => false

/-- Canonical-shape check of a URL string through the same URL parser:
scheme `https`, host exactly `www.linkedin.com`, path accepted by the
given path check, and no query or fragment. -/
def outputShape (check : Str → Bool) (u : Str) : Bool :=
  match pyUrlparse u with
  | none => false
  | some parts =>
    parts.scheme == httpsScheme && parts.netloc == wwwHost &&
      check parts.path && parts.query.isEmpty && parts.fragment.isEmpty

/-- Modelled from the spec's words for one optional query field: append
the quoted trimmed phrase exactly when the field is present and
non-blank after trimming. -/
def specOptionalTerm : Option Str → List Str
  | some t => if (pyStrip t).isEmpty then [] else [quoteTerm (pyStrip t)]
  | none => []

/-- Concrete inputs of the worked example and of the witnesses and
counterexamples below. -/
def exName : Str := r"Ronen Siman Tov".toList
def exTitle : Str := r"Ronen Siman Tov - CTO - IBM | LinkedIn".toList
def exLink : Str := r"https://il.linkedin.com/in/ronen-siman-tov?x=1".toList
def exCanon : Str := r"https://www.linkedin.com/in/ronen-siman-tov/".toList
def exPerson : PersonInput := ⟨exName, none, none, none, none⟩
def exProvider : Str → List SearchResult := fun _ => [⟨exTitle, exLink, []⟩]
def exParams : Params := ⟨some (PValue.str exName), none, none, none, none⟩
def exEnv : Env := ⟨some [Char.ofNat 75], some [Char.ofNat 67]⟩
def exHttp : Str → Except Str (List SearchResult) :=
  fun _ => Except.ok [⟨exTitle, exLink, []⟩]

/-- A whitespace-only `full_name` request (for the blank-name
counterexample) and a missing-`full_name` request. -/
def blankParams : Params := ⟨some (PValue.str [' ']), none, none, none, none⟩
def noNameParams : Params := ⟨none, none, none, none, none⟩
def emptyHttp : Str → Except Str (List SearchResult) := fun _ => Except.ok []

/-- Concrete two-profile scenario for the deduplication example
`[A, B, A] ↦ [A, B]`. -/
def joName : Str := r"jo".toList
def joPerson : PersonInput := ⟨joName, none, none, none, none⟩
def resA : SearchResult := ⟨joName, r"https://www.linkedin.com/in/a/".toList, []⟩
def resB : SearchResult := ⟨joName, r"https://www.linkedin.com/in/b/".toList, []⟩
def canonA : Str := r"https://www.linkedin.com/in/a/".toList
def canonB : Str := r"https://www.linkedin.com/in/b/".toList

/-- Concrete uppercase-path scenario: the filter accepts
`/IN/x` (the regex is case-insensitive) and emits an uppercase path. -/
def xName : Str := [Char.ofNat 120]
def xPerson : PersonInput := ⟨xName, none, none, none, none⟩
def upLink : Str := r"https://linkedin.com/IN/x".toList
def upCanon : Str := r"https://www.linkedin.com/IN/x/".toList
def upProvider : Str → List SearchResult := fun _ => [⟨xName, upLink, []⟩]

/-- Concrete uppercase `/PUB/` link for the path-acceptance
counterexample, and concrete non-profile links. -/
def pubLink : Str := r"https://linkedin.com/PUB/y".toList
def pubCanon : Str := r"https://www.linkedin.com/PUB/y/".toList
def companyLink : Str := r"https://www.linkedin.com/company/foo".toList
def postsLink : Str := r"https://www.linkedin.com/posts/123".toList
def jobsLink : Str := r"https://www.linkedin.com/jobs/1".toList

/-- A name with no ASCII letters, digits or whitespace: it normalizes to
the empty string. -/
def bangName : Str := [Char.ofNat 33, Char.ofNat 33, Char.ofNat 33]

/-- Membership in the deduplicated list: exactly the input elements not
already seen. -/
theorem dedupAux_mem_iff :
    ∀ (l seen : List Str) (x : Str), x ∈ dedupAux seen l ↔ x ∈ l ∧ x ∉ seen := by
  intro l
  induction l with
  | nil => intro seen x; simp [dedupAux]
  | cons u rest ih =>
    intro seen x
    by_cases hu : u ∈ seen
    · rw [show dedupAux seen (u :: rest) = dedupAux seen rest from by
        simp [dedupAux, hu]]
      rw [ih]
      constructor
      · rintro ⟨hx, hs⟩
        exact ⟨List.mem_cons_of_mem _ hx, hs⟩
      · rintro ⟨hx, hs⟩
        rcases List.mem_cons.mp hx with rfl | hx
        · exact absurd hu hs
        · exact ⟨hx, hs⟩
    · rw [show dedupAux seen (u :: rest) = u :: dedupAux (u :: seen) rest from by
        simp [dedupAux, hu]]
      constructor
      · intro hx
        rcases List.mem_cons.mp hx with rfl | hx
        · exact ⟨List.mem_cons_self _ _, hu⟩
        · have hih := (ih (u :: seen) x).mp hx
          exact ⟨List.mem_cons_of_mem _ hih.1,
            fun hs => hih.2 (List.mem_cons_of_mem _ hs)⟩
      · rintro ⟨hx, hs⟩
        rcases List.mem_cons.mp hx with rfl | hx
        · exact List.mem_cons_self _ _
        · by_cases hxu : x = u
          · subst hxu; exact List.mem_cons_self _ _
          · refine List.mem_cons_of_mem _ ((ih (u :: seen) x).mpr ⟨hx, ?_⟩)
            intro hmem
            rcases List.mem_cons.mp hmem with h1 | h1
            · exact hxu h1
            · exact hs h1

/-- The deduplicated list has no duplicates. -/
theorem dedupAux_nodup : ∀ (l seen : List Str), (dedupAux seen l).Nodup := by
  intro l
  induction l with
  | nil => intro seen; simp [dedupAux]
  | cons u rest ih =>
    intro seen
    by_cases hu : u ∈ seen
    · rw [show dedupAux seen (u :: rest) = dedupAux seen rest from by
        simp [dedupAux, hu]]
      exact ih seen
    · rw [show dedupAux seen (u :: rest) = u :: dedupAux (u :: seen) rest from by
        simp [dedupAux, hu]]
      refine List.nodup_cons.mpr ⟨?_, ih (u :: seen)⟩
      intro hmem
      exact ((dedupAux_mem_iff rest (u :: seen) u).mp hmem).2 (List.mem_cons_self _ _)

/-- The deduplicated list is a sublist of the input (order preserved). -/
theorem dedupAux_sublist : ∀ (l seen : List Str), List.Sublist (dedupAux seen l) l := by
  intro l
  induction l with
  | nil => intro seen; simp [dedupAux]
  | cons u rest ih =>
    intro seen
    by_cases hu : u ∈ seen
    · rw [show dedupAux seen (u :: rest) = dedupAux seen rest from by
        simp [dedupAux, hu]]
      exact (ih seen).cons _
    · rw [show dedupAux seen (u :: rest) = u :: dedupAux (u :: seen) rest from by
        simp [dedupAux, hu]]
      exact (ih (u :: seen)).cons₂ _

/-- Claim C1: for the input with full name "Ronen Siman Tov" and a
provider returning exactly one result with the worked example's title
and link, the filter pipeline outputs exactly
["https://www.linkedin.com/in/ronen-siman-tov/"], and the entrypoint
reports it as found (non-null best match, singleton candidate list). -/
theorem claim_c1_worked_example :
    find_linkedin_profile_urls exPerson exProvider = [exCanon] ∧
    mainEntry exParams exEnv exHttp =
      (MainResponse.success (some exCanon) [exCanon], ⟨true, true⟩) := by
  exact ⟨by decide, by decide⟩

/-- Claim C2 counterexample: a whitespace-only `full_name` (blank after
trimming) is NOT rejected: validation passes, the credentials are read
and the provider is contacted, and the request succeeds — refuting the
claim that every blank name yields a client-input error with the
provider never contacted. -/
theorem claim_c2_counterexample_blank_name_contacts_provider :
    pyStrip [' '] = [] ∧
    mainEntry blankParams exEnv emptyHttp =
      (MainResponse.success none [], ⟨true, true⟩) := by
  exact ⟨rfl, rfl⟩

/-- Claim C2 (amended): for every request in which `full_name` is
missing, not a string, or the empty string (the values rejected by
`not full_name or not isinstance(full_name, str)`), the entrypoint
returns the 400 client-input error and the provider is never contacted
(no credential read, no HTTP call).  A whitespace-only name is NOT
rejected (see the counterexample). -/
theorem claim_c2_amended_missing_name_rejected (params : Params) (env : Env)
    (http : Str → Except Str (List SearchResult))
    (h : params.full_name = none ∨
         (∃ b, params.full_name = some (PValue.nonStr b)) ∨
         params.full_name = some (PValue.str [])) :
    mainEntry params env http =
      (MainResponse.error 400 fullNameRequiredMsg, ⟨false, false⟩) := by
  rcases h with h | ⟨b, h⟩ | h <;> simp [mainEntry, h]

/-- Claim C2 witness: the amended theorem applied to a request with no
`full_name` at all. -/
theorem claim_c2_witness :
    mainEntry noNameParams exEnv exHttp =
      (MainResponse.error 400 fullNameRequiredMsg, ⟨false, false⟩) :=
  claim_c2_amended_missing_name_rejected noNameParams exEnv exHttp (Or.inl rfl)

/-- Claim C3: for every person and provider, the output of
`find_linkedin_profile_urls` has no duplicates, is a sublist of the
scored URL list (so the input order is preserved), and contains exactly
the scored URLs (first occurrences are kept, none dropped); and in the
concrete scenario `[A, B, A]` with distinct canonical URLs the output
is `[A, B]`. -/
theorem claim_c3_dedup_order :
    (∀ (p : PersonInput) (search : Str → List SearchResult),
      (find_linkedin_profile_urls p search).Nodup ∧
      List.Sublist (find_linkedin_profile_urls p search)
        ((search (build_query p)).filterMap (keepResult p)) ∧
      (∀ x, x ∈ find_linkedin_profile_urls p search ↔
        x ∈ (search (build_query p)).filterMap (keepResult p))) ∧
    find_linkedin_profile_urls joPerson (fun _ => [resA, resB, resA]) =
      [canonA, canonB] := by
  constructor
  · intro p search
    refine ⟨dedupAux_nodup _ _, dedupAux_sublist _ _, fun x => ?_⟩
    rw [show find_linkedin_profile_urls p search =
      dedupAux [] ((search (build_query p)).filterMap (keepResult p)) from rfl]
    rw [dedupAux_mem_iff]
    simp
  · decide

/-- Claim C8: whenever validation passes (a non-empty string name),
both credentials are truthy and the provider call returns a result
list, the entrypoint returns the non-error success response whose best
match is the head of the filtered list (`None` exactly when no result
survives filtering) together with the full candidate list. -/
theorem claim_c8_success_shape (params : Params) (env : Env)
    (http : Str → Except Str (List SearchResult)) (s : Str)
    (results : List SearchResult)
    (hname : params.full_name = some (PValue.str s)) (hs : s ≠ [])
    (hkey : envTruthy env.google_api_key = true)
    (hcx : envTruthy env.google_cx = true)
    (hhttp : http (build_query (personOf params s)) = Except.ok results) :
    mainEntry params env http =
      (MainResponse.success (filterResults (personOf params s) results).head?
        (filterResults (personOf params s) results), ⟨true, true⟩) := by
  have hemp : s.isEmpty = false := by
    cases s with
    | nil => exact absurd rfl hs
    | cons a l => rfl
  simp [mainEntry, hname, hemp, hkey, hcx, hhttp]

/-- Claim C8 witness: zero surviving results yield the success response
with a null best match and an empty candidate list. -/
theorem claim_c8_witness :
    mainEntry exParams exEnv emptyHttp =
      (MainResponse.success none [], ⟨true, true⟩) :=
  claim_c8_success_shape exParams exEnv emptyHttp exName [] rfl
    (by decide) rfl rfl rfl

/-- The comprehension guard agrees with the spec-modelled optional term:
the extra non-emptiness test in `t and t.strip()` is redundant, because
an empty string is also blank after trimming. -/
theorem guard_toList (t? : Option Str) :
    specOptionalTerm t? = (quotedOptionalGuard t?).toList := by
  rcases t? with _ | t
  · rfl
  · cases t with
    | nil => rfl
    | cons a l =>
      simp only [quotedOptionalGuard, specOptionalTerm, List.isEmpty_cons,
        Bool.not_false, Bool.true_and]
      by_cases h : (pyStrip (a :: l)).isEmpty
      · simp [h]
      · simp [h]

/-- The optional terms decompose field by field, in tuple order. -/
theorem quoted_optional_eq (p : PersonInput) :
    _quoted_optional_terms p =
      specOptionalTerm p.company_or_university
        ++ specOptionalTerm p.title_or_role
        ++ specOptionalTerm p.location := by
  unfold _quoted_optional_terms
  rw [guard_toList, guard_toList, guard_toList]
  cases h1 : quotedOptionalGuard p.company_or_university <;>
    cases h2 : quotedOptionalGuard p.title_or_role <;>
    cases h3 : quotedOptionalGuard p.location <;>
    simp [List.filterMap_cons, h1, h2, h3]

/-- Claim C7: the query parts are, in order: the fixed site term, the
quoted trimmed name, then — immediately after the name term — one
quoted trimmed phrase for each of company_or_university, title_or_role
and location in exactly that order (each present exactly when the field
is present and non-blank after trimming, as `specOptionalTerm` states),
then the fixed negative terms, then the optional bare email term;
`build_query` is the whitespace-collapsed space-join of these parts. -/
theorem claim_c7_optional_terms (p : PersonInput) :
    buildQueryParts p =
      [siteTerm, quoteTerm (pyStrip p.full_name)]
        ++ specOptionalTerm p.company_or_university
        ++ specOptionalTerm p.title_or_role
        ++ specOptionalTerm p.location
        ++ negativeTerms ++ emailTerm p ∧
    build_query p =
      pyStrip (collapseWsRuns (List.intercalate [' '] (buildQueryParts p))) := by
  constructor
  · unfold buildQueryParts
    rw [quoted_optional_eq]
    simp [List.append_assoc]
  · rfl

/-- Claim C7 witness: with all three optional fields set they appear as
quoted phrases in tuple order right after the name. -/
theorem claim_c7_witness :
    buildQueryParts ⟨joName, none, some [Char.ofNat 76], some [Char.ofNat 84],
        some [Char.ofNat 67]⟩ =
      [siteTerm, quoteTerm (pyStrip joName)]
        ++ [quoteTerm [Char.ofNat 67]] ++ [quoteTerm [Char.ofNat 84]]
        ++ [quoteTerm [Char.ofNat 76]] ++ negativeTerms ++ [] := by
  have h := (claim_c7_optional_terms ⟨joName, none, some [Char.ofNat 76],
    some [Char.ofNat 84], some [Char.ofNat 67]⟩).1
  rw [h]
  rfl

/-- Claim C9: a missing or empty `items` list in the parsed body yields
the empty result sequence (not an error), and a result item missing
`title`, `link` or `snippet` yields the empty string in that field. -/
theorem claim_c9_parse_defaults :
    (∀ data : List (Str × Json),
      (jsonLookup itemsKey data = none ∨
        jsonLookup itemsKey data = some (Json.arr [])) →
      searchParseBody data = Except.ok []) ∧
    (∀ fields : List (Str × Json),
      (jsonLookup titleKey fields = none → (parseItem fields).title = []) ∧
      (jsonLookup linkKey fields = none → (parseItem fields).link = []) ∧
      (jsonLookup snippetKey fields = none → (parseItem fields).snippet = [])) := by
  constructor
  · intro data h
    unfold searchParseBody
    rcases h with h | h <;> rw [h] <;> rfl
  · intro fields
    refine ⟨fun h => ?_, fun h => ?_, fun h => ?_⟩ <;>
      unfold parseItem <;> rw [h] <;> rfl

/-- Claim C9 witness: the empty body parses to zero results, and an
item with no fields parses to empty strings throughout. -/
theorem claim_c9_witness :
    searchParseBody [] = Except.ok [] ∧ (parseItem []).title = [] ∧
      (parseItem []).link = [] ∧ (parseItem []).snippet = [] :=
  ⟨claim_c9_parse_defaults.1 [] (Or.inl rfl),
   (claim_c9_parse_defaults.2 []).1 rfl,
   (claim_c9_parse_defaults.2 []).2.1 rfl,
   (claim_c9_parse_defaults.2 []).2.2 rfl⟩

/-- A normalized URL is never the empty string (it starts with the
canonical scheme-and-host prefix), so the falsy-URL guard in the loop
never fires on a successful normalization. -/
theorem normalize_ne_nil {url c : Str}
    (h : normalize_linkedin_profile_url url = some c) : c.isEmpty = false := by
  unfold normalize_linkedin_profile_url at h
  split at h
  · exact absurd h (by simp)
  · unfold normalizeChecks at h
    split at h
    · exact absurd h (by simp)
    · split at h
      · exact absurd h (by simp)
      · have hc := Option.some.inj h
        rw [← hc]
        rfl

/-- Claim C10 (implicit): if the full name normalizes to the empty
string, the title filter accepts every title, and the loop keeps
exactly the results whose link normalizes — the name filter rejects
nothing. -/
theorem claim_c10_empty_normalized_name (name : Str)
    (h : _normalize_text name = []) :
    (∀ title, title_contains_full_name title name = true) ∧
    (∀ (p : PersonInput) (results : List SearchResult), p.full_name = name →
      results.filterMap (keepResult p) =
        results.filterMap fun r => normalize_linkedin_profile_url r.link) := by
  have htitle : ∀ title, title_contains_full_name title name = true := by
    intro title
    unfold title_contains_full_name isSubstrOf
    rw [h]
    exact decide_eq_true List.nil_infix
  refine ⟨htitle, ?_⟩
  intro p results hp
  refine List.filterMap_congr fun r _ => ?_
  unfold keepResult
  rw [hp, htitle r.title]
  cases hn : normalize_linkedin_profile_url r.link with
  | none => simp
  | some c => simp [normalize_ne_nil hn]

/-- Claim C10 witness: a full name of three exclamation marks normalizes
to the empty string and then any title passes the filter. -/
theorem claim_c10_witness :
    _normalize_text bangName = [] ∧
    title_contains_full_name exTitle bangName = true :=
  ⟨by decide, (claim_c10_empty_normalized_name bangName (by decide)).1 exTitle⟩

/-- Inversion of a successful first-occurrence split. -/
theorem splitFirst_eq_some {sep : Char} :
    ∀ {l a b : Str}, splitFirst sep l = some (a, b) → l = a ++ sep :: b ∧ sep ∉ a := by
  intro l
  induction l with
  | nil => intro a b h; exact absurd h (by simp [splitFirst])
  | cons c rest ih =>
    intro a b h
    unfold splitFirst at h
    by_cases hc : c = sep
    · rw [if_pos hc] at h
      simp only [Option.some.injEq, Prod.mk.injEq] at h
      obtain ⟨rfl, rfl⟩ := h
      simp [hc]
    · rw [if_neg hc] at h
      cases hs : splitFirst sep rest with
      | none => rw [hs] at h; cases h
      | some ab =>
        rw [hs] at h
        simp only [Option.map_some', Option.some.injEq, Prod.mk.injEq] at h
        obtain ⟨rfl, rfl⟩ := h
        obtain ⟨hrest, hnot⟩ := ih hs
        constructor
        · rw [List.cons_append, ← hrest]
        · intro hmem
          rcases List.mem_cons.mp hmem with h1 | h1
          · exact hc h1.symm
          · exact hnot h1

/-- A failed split means the separator is absent. -/
theorem splitFirst_eq_none {sep : Char} :
    ∀ {l : Str}, splitFirst sep l = none → sep ∉ l := by
  intro l
  induction l with
  | nil => intro _; simp
  | cons c rest ih =>
    intro h
    unfold splitFirst at h
    by_cases hc : c = sep
    · rw [if_pos hc] at h; cases h
    · rw [if_neg hc] at h
      cases hs : splitFirst sep rest with
      | none =>
        intro hmem
        rcases List.mem_cons.mp hmem with h1 | h1
        · exact hc h1.symm
        · exact ih hs h1
      | some ab => rw [hs] at h; cases h

/-- Conversely, an absent separator means the split fails. -/
theorem splitFirst_eq_none_of_not_mem {sep : Char} :
    ∀ {l : Str}, sep ∉ l → splitFirst sep l = none := by
  intro l
  induction l with
  | nil => intro _; rfl
  | cons c rest ih =>
    intro h
    by_cases hc : c = sep
    · subst hc
      exact absurd (List.mem_cons_self _ _) h
    · unfold splitFirst
      rw [if_neg hc, ih fun hm => h (List.mem_cons_of_mem _ hm)]
      rfl

/-- The part before an optional split is part of the input. -/
theorem splitOpt_fst_subset (sep : Char) (l : Str) :
    ∀ c ∈ (splitOpt sep l).1, c ∈ l := by
  intro c hc
  unfold splitOpt at hc
  cases hs : splitFirst sep l with
  | none => rw [hs] at hc; exact hc
  | some ab =>
    rw [hs] at hc
    rw [(splitFirst_eq_some hs).1]
    exact List.mem_append_left _ hc

/-- The part before an optional split never contains the separator. -/
theorem splitOpt_fst_not_mem (sep : Char) (l : Str) : sep ∉ (splitOpt sep l).1 := by
  unfold splitOpt
  cases hs : splitFirst sep l with
  | none => exact splitFirst_eq_none hs
  | some ab => exact (splitFirst_eq_some hs).2

/-- The sanitised URL contains no unsafe bytes. -/
theorem cleanUrl_no_unsafe (url : Str) :
    ∀ c ∈ cleanUrl url, isUnsafeUrlByte c = false := by
  intro c hc
  unfold cleanUrl at hc
  have := List.of_mem_filter hc
  simpa using this

/-- Case analysis of scheme detection: either the URL is untouched, or
a successful `:`-split yields the lower-cased scheme and the rest. -/
theorem splitScheme_cases (u : Str) :
    splitScheme u = ([], u) ∨
    ∃ a b, splitFirst ':' u = some (a, b) ∧
      splitScheme u = (a.map Char.toLower, b) := by
  unfold splitScheme
  cases hs : splitFirst ':' u with
  | none => exact Or.inl rfl
  | some ab =>
    rcases ab with ⟨a, b⟩
    cases a with
    | nil => exact Or.inl rfl
    | cons c0 cs =>
      by_cases hok : c0.isAlpha && (c0 :: cs).all isSchemeChar
      · exact Or.inr ⟨c0 :: cs, b, rfl, if_pos hok⟩
      · exact Or.inl (if_neg hok)

/-- The remainder after scheme detection is part of the input. -/
theorem splitScheme_snd_subset (u : Str) : ∀ c ∈ (splitScheme u).2, c ∈ u := by
  intro c hc
  rcases splitScheme_cases u with h | ⟨a, b, hs, h⟩
  · rw [h] at hc; exact hc
  · rw [h] at hc
    rw [(splitFirst_eq_some hs).1]
    exact List.mem_append_right _ (List.mem_cons_of_mem _ hc)

/-- The remainder after netloc extraction is part of the input. -/
theorem splitNetlocPart_snd_subset (u : Str) :
    ∀ c ∈ (splitNetlocPart u).2, c ∈ u := by
  unfold splitNetlocPart
  split
  · next rest =>
    intro c hc
    exact List.mem_cons_of_mem _ (List.mem_cons_of_mem _
      ((List.dropWhile_sublist _).subset hc))
  · intro c hc; exact hc

/-- The path part of the params split is part of the input. -/
theorem splitParams_fst_subset (u : Str) : ∀ c ∈ (splitParams u).1, c ∈ u := by
  intro c hc
  unfold splitParams at hc
  by_cases hslash : '/' ∈ u
  · rw [if_pos hslash] at hc
    cases hs : splitFirst ';' (u.reverse.takeWhile fun c => c ≠ '/').reverse with
    | none => rw [hs] at hc; exact hc
    | some ab =>
      rw [hs] at hc
      rcases List.mem_append.mp hc with h1 | h1
      · have h2 := List.mem_reverse.mp h1
        exact List.mem_reverse.mp ((List.dropWhile_sublist _).subset h2)
      · have h2 : c ∈ (u.reverse.takeWhile fun c => c ≠ '/').reverse := by
          rw [(splitFirst_eq_some hs).1]
          exact List.mem_append_left _ h1
        have h3 := List.mem_reverse.mp h2
        exact List.mem_reverse.mp ((List.takeWhile_sublist _).subset h3)
  · rw [if_neg hslash] at hc
    cases hs : splitFirst ';' u with
    | none => rw [hs] at hc; exact hc
    | some ab =>
      rw [hs] at hc
      rw [(splitFirst_eq_some hs).1]
      exact List.mem_append_left _ hc

/-- The path produced by `urlsplit` contains no unsafe byte, no `#` and
no `?`. -/
theorem pyUrlsplit_path_facts {url : Str} {s : SplitUrl}
    (h : pyUrlsplit url = some s) :
    (∀ c ∈ s.path, isUnsafeUrlByte c = false) ∧ '#' ∉ s.path ∧ '?' ∉ s.path := by
  unfold pyUrlsplit urlsplitSplits at h
  split at h
  · cases h
  · have hs := Option.some.inj h
    subst hs
    refine ⟨fun c hc => ?_, fun hc => ?_, fun hc => ?_⟩
    · have h1 := splitOpt_fst_subset '?' _ c hc
      have h2 := splitOpt_fst_subset '#' _ c h1
      have h3 := splitNetlocPart_snd_subset _ c h2
      have h4 := splitScheme_snd_subset _ c h3
      exact cleanUrl_no_unsafe url c h4
    · exact splitOpt_fst_not_mem '#' _ (splitOpt_fst_subset '?' _ _ hc)
    · exact splitOpt_fst_not_mem '?' _ hc

/-- Case analysis of `urlparse` on a successful `urlsplit`: the params
split either applies to the path or leaves it untouched. -/
theorem pyUrlparse_cases (url : Str) {s : SplitUrl}
    (hs : pyUrlsplit url = some s) :
    pyUrlparse url = some ⟨s.scheme, s.netloc, (splitParams s.path).1,
      (splitParams s.path).2, s.query, s.fragment⟩ ∨
    pyUrlparse url = some ⟨s.scheme, s.netloc, s.path, [], s.query,
      s.fragment⟩ := by
  unfold pyUrlparse
  rw [hs]
  by_cases hcond : s.scheme ∈ usesParams ∧ ';' ∈ s.path
  · exact Or.inl (if_pos hcond)
  · exact Or.inr (if_neg hcond)

/-- A failed `urlsplit` makes `urlparse` fail as well. -/
theorem pyUrlparse_eq_none {url : Str} (hs : pyUrlsplit url = none) :
    pyUrlparse url = none := by
  unfold pyUrlparse
  rw [hs]

/-- The path produced by `urlparse` contains no unsafe byte, no `#` and
no `?`. -/
theorem pyUrlparse_path_facts {url : Str} {u : UrlParts}
    (h : pyUrlparse url = some u) :
    (∀ c ∈ u.path, isUnsafeUrlByte c = false) ∧ '#' ∉ u.path ∧ '?' ∉ u.path := by
  cases hs : pyUrlsplit url with
  | none => rw [pyUrlparse_eq_none hs] at h; cases h
  | some s =>
    have hfacts := pyUrlsplit_path_facts hs
    rcases pyUrlparse_cases url hs with h2 | h2 <;> rw [h2] at h <;>
      cases Option.some.inj h
    · exact ⟨fun c hc => hfacts.1 c (splitParams_fst_subset _ c hc),
        fun hc => hfacts.2.1 (splitParams_fst_subset _ _ hc),
        fun hc => hfacts.2.2 (splitParams_fst_subset _ _ hc)⟩
    · exact hfacts

/-- `takeWhile` stops exactly at the first failing element after an
all-satisfying prefix. -/
theorem takeWhile_append_of_all {p : Char → Bool} :
    ∀ (xs : Str), (∀ c ∈ xs, p c = true) → ∀ (y : Char), p y = false →
      ∀ (ys : Str), ((xs ++ y :: ys).takeWhile p) = xs := by
  intro xs
  induction xs with
  | nil =>
    intro _ y hy ys
    simp [List.takeWhile_cons, hy]
  | cons a l ih =>
    intro hx y hy ys
    have ha : p a = true := hx a (List.mem_cons_self _ _)
    simp only [List.cons_append, List.takeWhile_cons, ha, if_true]
    rw [ih (fun c hc => hx c (List.mem_cons_of_mem _ hc)) y hy ys]

/-- `dropWhile` drops exactly an all-satisfying prefix up to the first
failing element. -/
theorem dropWhile_append_of_all {p : Char → Bool} :
    ∀ (xs : Str), (∀ c ∈ xs, p c = true) → ∀ (y : Char), p y = false →
      ∀ (ys : Str), ((xs ++ y :: ys).dropWhile p) = y :: ys := by
  intro xs
  induction xs with
  | nil =>
    intro _ y hy ys
    simp [List.dropWhile_cons, hy]
  | cons a l ih =>
    intro hx y hy ys
    have ha : p a = true := hx a (List.mem_cons_self _ _)
    simp only [List.cons_append, List.dropWhile_cons, ha, if_true]
    exact ih (fun c hc => hx c (List.mem_cons_of_mem _ hc)) y hy ys

/-- `dropWhile` over an all-satisfying prefix continues in the suffix. -/
theorem dropWhile_append_all {p : Char → Bool} :
    ∀ (xs : Str), (∀ c ∈ xs, p c = true) →
      ∀ (ys : Str), ((xs ++ ys).dropWhile p) = ys.dropWhile p := by
  intro xs
  induction xs with
  | nil => intro _ ys; rfl
  | cons a l ih =>
    intro hx ys
    have ha : p a = true := hx a (List.mem_cons_self _ _)
    simp only [List.cons_append, List.dropWhile_cons, ha, if_true]
    exact ih (fun c hc => hx c (List.mem_cons_of_mem _ hc)) ys

/-- Removing trailing slashes from a word that ends in a non-slash
character followed by only slashes returns the word. -/
theorem rstripSlashes_append (ys : Str) (e : Char) (he : (e == '/') = false)
    (ts : Str) (ht : ∀ c ∈ ts, (c == '/') = true) :
    rstripSlashes ((ys ++ [e]) ++ ts) = ys ++ [e] := by
  unfold rstripSlashes
  rw [List.reverse_append, List.reverse_append]
  rw [show [e].reverse = [e] from rfl]
  rw [show ([e] ++ ys.reverse) = e :: ys.reverse from rfl]
  rw [dropWhile_append_all ts.reverse
    (fun c hc => ht c (List.mem_reverse.mp hc)) (e :: ys.reverse)]
  rw [List.dropWhile_cons_of_neg (by simp [he])]
  simp

/-- The trailing-slash strip of a matched profile path keeps everything
up to the slug. -/
theorem rstripSlashes_profile (seg slug : Str) (hslug : slug ≠ [])
    (hslugns : ∀ c ∈ slug, c ≠ '/') (tl : Str)
    (htl : tl = [] ∨ tl = ['/']) :
    rstripSlashes ('/' :: (seg ++ '/' :: (slug ++ tl))) =
      '/' :: (seg ++ '/' :: slug) := by
  obtain rfl | ⟨slug', e, rfl⟩ := List.eq_nil_or_concat slug
  · exact absurd rfl hslug
  · have he : (e == '/') = false := by
      have : e ≠ '/' := hslugns e (by simp [List.concat_eq_append])
      simpa using this
    have hregroup : '/' :: (seg ++ '/' :: (slug'.concat e ++ tl)) =
        (('/' :: (seg ++ '/' :: slug')) ++ [e]) ++ tl := by
      simp [List.concat_eq_append, List.append_assoc]
    rw [hregroup]
    rw [rstripSlashes_append _ e he tl ?_]
    · simp [List.concat_eq_append, List.append_assoc]
    · intro c hc
      rcases htl with rfl | rfl
      · cases hc
      · rcases List.mem_singleton.mp hc with rfl
        rfl

/-- Inversion of a successful profile-path regex match. -/
theorem profilePathMatch_inv {pth : Str} (h : profilePathMatch pth = true) :
    ∃ seg slug tl, pth = '/' :: (seg ++ '/' :: (slug ++ tl)) ∧
      (seg.map Char.toLower = r"in".toList ∨
        seg.map Char.toLower = r"pub".toList) ∧
      slug ≠ [] ∧ (∀ c ∈ seg, c ≠ '/') ∧ (∀ c ∈ slug, c ≠ '/') ∧
      (tl = [] ∨ tl = ['/']) := by
  unfold profilePathMatch at h
  split at h
  · next rest =>
    rw [Bool.and_eq_true, Bool.or_eq_true] at h
    obtain ⟨hseg, hrest⟩ := h
    split at hrest
    · next tail heqd =>
      unfold segmentOk at hrest
      rw [Bool.and_eq_true, Bool.or_eq_true] at hrest
      obtain ⟨hne, htl⟩ := hrest
      refine ⟨rest.takeWhile fun c => c ≠ '/', tail.takeWhile fun c => c ≠ '/',
        tail.dropWhile fun c => c ≠ '/', ?_, ?_, ?_, ?_, ?_, ?_⟩
      · conv_lhs => rw [← List.takeWhile_append_dropWhile
          (p := fun c => decide (c ≠ '/')) (l := rest)]
        rw [heqd]
        rw [← List.takeWhile_append_dropWhile
          (p := fun c => decide (c ≠ '/')) (l := tail)]
        simp
      · rcases hseg with h1 | h1
        · exact Or.inl (by simpa using h1)
        · exact Or.inr (by simpa using h1)
      · intro hnil
        rw [hnil] at hne
        simp at hne
      · intro c hc
        have := List.mem_takeWhile_imp hc
        simpa using this
      · intro c hc
        have := List.mem_takeWhile_imp hc
        simpa using this
      · rcases htl with h1 | h1
        · exact Or.inl (by simpa using h1)
        · exact Or.inr (by simpa using h1)
    · cases hrest
  · cases h

/-- Forward computation: a canonical profile path matches the regex. -/
theorem profilePathMatch_canonical {seg slug : Str}
    (hseg : seg.map Char.toLower = r"in".toList ∨
      seg.map Char.toLower = r"pub".toList)
    (hsegns : ∀ c ∈ seg, c ≠ '/') (hslug : slug ≠ [])
    (hslugns : ∀ c ∈ slug, c ≠ '/') :
    profilePathMatch ('/' :: (seg ++ '/' :: (slug ++ ['/']))) = true := by
  rw [show profilePathMatch ('/' :: (seg ++ '/' :: (slug ++ ['/']))) =
    ((((seg ++ '/' :: (slug ++ ['/'])).takeWhile fun c => c ≠ '/').map
          Char.toLower == r"in".toList ||
        ((seg ++ '/' :: (slug ++ ['/'])).takeWhile fun c => c ≠ '/').map
          Char.toLower == r"pub".toList) &&
      (match (seg ++ '/' :: (slug ++ ['/'])).dropWhile fun c => c ≠ '/' with
       | '/' :: tail => segmentOk tail
       | _ => false)) from rfl]
  rw [takeWhile_append_of_all seg (fun c hc => by simpa using hsegns c hc) '/'
    (by simp) _]
  rw [dropWhile_append_of_all seg (fun c hc => by simpa using hsegns c hc) '/'
    (by simp) _]
  rw [show (match ('/' :: (slug ++ ['/']) : Str) with
       | '/' :: tail => segmentOk tail
       | _ => false) = segmentOk (slug ++ ['/']) from rfl]
  unfold segmentOk
  rw [takeWhile_append_of_all slug (fun c hc => by simpa using hslugns c hc) '/'
    (by simp) _]
  rw [dropWhile_append_of_all slug (fun c hc => by simpa using hslugns c hc) '/'
    (by simp) _]
  rcases hseg with h1 | h1 <;> simp [h1, List.isEmpty_iff, hslug]

/-- Forward computation: a canonical profile path passes the strict
(exactly one trailing slash) case-insensitive shape check. -/
theorem canonicalPathCI_canonical {seg slug : Str}
    (hseg : seg.map Char.toLower = r"in".toList ∨
      seg.map Char.toLower = r"pub".toList)
    (hsegns : ∀ c ∈ seg, c ≠ '/') (hslug : slug ≠ [])
    (hslugns : ∀ c ∈ slug, c ≠ '/') :
    canonicalPathCI ('/' :: (seg ++ '/' :: (slug ++ ['/']))) = true := by
  rw [show canonicalPathCI ('/' :: (seg ++ '/' :: (slug ++ ['/']))) =
    ((((seg ++ '/' :: (slug ++ ['/'])).takeWhile fun c => c ≠ '/').map
          Char.toLower == r"in".toList ||
        ((seg ++ '/' :: (slug ++ ['/'])).takeWhile fun c => c ≠ '/').map
          Char.toLower == r"pub".toList) &&
      (match (seg ++ '/' :: (slug ++ ['/'])).dropWhile fun c => c ≠ '/' with
       | '/' :: tail => exactProfileTail tail
       | _ => false)) from rfl]
  rw [takeWhile_append_of_all seg (fun c hc => by simpa using hsegns c hc) '/'
    (by simp) _]
  rw [dropWhile_append_of_all seg (fun c hc => by simpa using hsegns c hc) '/'
    (by simp) _]
  rw [show (match ('/' :: (slug ++ ['/']) : Str) with
       | '/' :: tail => exactProfileTail tail
       | _ => false) = exactProfileTail (slug ++ ['/']) from rfl]
  unfold exactProfileTail
  rw [takeWhile_append_of_all slug (fun c hc => by simpa using hslugns c hc) '/'
    (by simp) _]
  rw [dropWhile_append_of_all slug (fun c hc => by simpa using hslugns c hc) '/'
    (by simp) _]
  rcases hseg with h1 | h1 <;> simp [h1, List.isEmpty_iff, hslug]

/-- The params split leaves a path ending in `/` untouched (there is no
`;` after the last slash). -/
theorem splitParams_trailing_slash (xs : Str) :
    splitParams (xs ++ ['/']) = (xs ++ ['/'], []) := by
  unfold splitParams
  rw [if_pos (List.mem_append_right _ (List.mem_singleton.mpr rfl))]
  rw [show (xs ++ ['/']).reverse = '/' :: xs.reverse from by simp]
  rw [List.takeWhile_cons_of_neg (by simp)]
  rfl

/-- Full `urlsplit` computation on a canonical profile URL: the scheme
is `https`, the netloc is the canonical host, the path is kept whole,
and query and fragment are empty. -/
theorem pyUrlsplit_canonical (seg slug : Str)
    (hsegch : ∀ c ∈ seg, isUnsafeUrlByte c = false ∧ c ≠ '/' ∧ c ≠ '#' ∧ c ≠ '?')
    (hslugch : ∀ c ∈ slug, isUnsafeUrlByte c = false ∧ c ≠ '/' ∧ c ≠ '#' ∧ c ≠ '?') :
    pyUrlsplit (httpsRoot ++ '/' :: (seg ++ '/' :: (slug ++ ['/']))) =
      some ⟨httpsScheme, wwwHost, '/' :: (seg ++ '/' :: (slug ++ ['/'])), [], []⟩ := by
  have hclean : cleanUrl (httpsRoot ++ '/' :: (seg ++ '/' :: (slug ++ ['/']))) =
      httpsRoot ++ '/' :: (seg ++ '/' :: (slug ++ ['/'])) := by
    unfold cleanUrl
    rw [show httpsRoot ++ '/' :: (seg ++ '/' :: (slug ++ ['/'])) =
      'h' :: (r"ttps://www.linkedin.com".toList
        ++ '/' :: (seg ++ '/' :: (slug ++ ['/']))) from rfl]
    rw [List.dropWhile_cons_of_neg (by decide)]
    rw [List.filter_eq_self.mpr]
    intro a ha
    rw [List.mem_cons] at ha
    rcases ha with rfl | ha
    · decide
    rcases List.mem_append.mp ha with ha | ha
    · have hall : ∀ x ∈ (r"ttps://www.linkedin.com".toList : Str),
          (!isUnsafeUrlByte x) = true := by decide
      exact hall a ha
    rw [List.mem_cons] at ha
    rcases ha with rfl | ha
    · decide
    rcases List.mem_append.mp ha with ha | ha
    · simp [(hsegch a ha).1]
    rw [List.mem_cons] at ha
    rcases ha with rfl | ha
    · decide
    rcases List.mem_append.mp ha with ha | ha
    · simp [(hslugch a ha).1]
    · rcases List.mem_singleton.mp ha with rfl
      decide
  have hpath_hash : splitFirst '#' ('/' :: (seg ++ '/' :: (slug ++ ['/']))) = none := by
    apply splitFirst_eq_none_of_not_mem
    intro hmem
    rw [List.mem_cons] at hmem
    rcases hmem with h1 | h1
    · cases h1
    rcases List.mem_append.mp h1 with h1 | h1
    · exact (hsegch _ h1).2.2.1 rfl
    rw [List.mem_cons] at h1
    rcases h1 with h1 | h1
    · cases h1
    rcases List.mem_append.mp h1 with h1 | h1
    · exact (hslugch _ h1).2.2.1 rfl
    · rcases List.mem_singleton.mp h1 with h1
      cases h1
  have hpath_q : splitFirst '?' ('/' :: (seg ++ '/' :: (slug ++ ['/']))) = none := by
    apply splitFirst_eq_none_of_not_mem
    intro hmem
    rw [List.mem_cons] at hmem
    rcases hmem with h1 | h1
    · cases h1
    rcases List.mem_append.mp h1 with h1 | h1
    · exact (hsegch _ h1).2.2.2 rfl
    rw [List.mem_cons] at h1
    rcases h1 with h1 | h1
    · cases h1
    rcases List.mem_append.mp h1 with h1 | h1
    · exact (hslugch _ h1).2.2.2 rfl
    · rcases List.mem_singleton.mp h1 with h1
      cases h1
  unfold pyUrlsplit
  rw [hclean]
  show urlsplitSplits httpsScheme wwwHost ('/' :: (seg ++ '/' :: (slug ++ ['/']))) = _
  unfold urlsplitSplits
  rw [if_neg (by decide)]
  unfold splitOpt
  rw [hpath_hash, hpath_q]

/-- Full `urlparse` computation on a canonical profile URL. -/
theorem pyUrlparse_canonical (seg slug : Str)
    (hsegch : ∀ c ∈ seg, isUnsafeUrlByte c = false ∧ c ≠ '/' ∧ c ≠ '#' ∧ c ≠ '?')
    (hslugch : ∀ c ∈ slug, isUnsafeUrlByte c = false ∧ c ≠ '/' ∧ c ≠ '#' ∧ c ≠ '?') :
    pyUrlparse (httpsRoot ++ '/' :: (seg ++ '/' :: (slug ++ ['/']))) =
      some ⟨httpsScheme, wwwHost, '/' :: (seg ++ '/' :: (slug ++ ['/'])), [], [], []⟩ := by
  have hs := pyUrlsplit_canonical seg slug hsegch hslugch
  have hre : ('/' :: (seg ++ '/' :: (slug ++ ['/'])) : Str) =
      ('/' :: (seg ++ '/' :: slug)) ++ ['/'] := by simp
  rcases pyUrlparse_cases _ hs with h | h
  · rw [hre] at h
    rw [splitParams_trailing_slash] at h
    rw [← hre] at h
    exact h
  · exact h

/-- On a successful parse, normalization reduces to the checks. -/
theorem normalize_eval {url : Str} {u : UrlParts}
    (hp : pyUrlparse url = some u) :
    normalize_linkedin_profile_url url = normalizeChecks u := by
  unfold normalize_linkedin_profile_url
  rw [hp]

/-- Inversion of a successful normalization: a successful parse whose
netloc contains the domain and whose path matches the regex, rebuilt
with the canonical prefix. -/
theorem normalize_some_inv {url c : Str}
    (h : normalize_linkedin_profile_url url = some c) :
    ∃ u, pyUrlparse url = some u ∧
      isSubstrOf linkedinDomain u.netloc = true ∧
      profilePathMatch u.path = true ∧
      c = httpsRoot ++ (rstripSlashes u.path ++ ['/']) := by
  unfold normalize_linkedin_profile_url at h
  cases hp : pyUrlparse url with
  | none => rw [hp] at h; cases h
  | some u =>
    rw [hp] at h
    have hcheck : normalizeChecks u = some c := h
    unfold normalizeChecks at hcheck
    by_cases h1 : isSubstrOf linkedinDomain u.netloc = true
    · rw [if_neg (by simp [h1])] at hcheck
      by_cases h2 : profilePathMatch u.path = true
      · rw [if_neg (by simp [h2])] at hcheck
        exact ⟨u, rfl, h1, h2, (Option.some.inj hcheck).symm⟩
      · rw [if_pos (by simp [h2])] at hcheck
        cases hcheck
    · rw [if_pos (by simp [h1])] at hcheck
      cases hcheck

/-- Structure of every successful normalization result: the canonical
prefix, a case-variant `in`/`pub` segment, a non-empty slash-free slug
free of `#`, `?` and unsafe bytes, and exactly one trailing slash. -/
theorem normalize_shape {url c : Str}
    (h : normalize_linkedin_profile_url url = some c) :
    ∃ seg slug,
      (seg.map Char.toLower = r"in".toList ∨
        seg.map Char.toLower = r"pub".toList) ∧
      slug ≠ [] ∧
      (∀ x ∈ seg, isUnsafeUrlByte x = false ∧ x ≠ '/' ∧ x ≠ '#' ∧ x ≠ '?') ∧
      (∀ x ∈ slug, isUnsafeUrlByte x = false ∧ x ≠ '/' ∧ x ≠ '#' ∧ x ≠ '?') ∧
      c = httpsRoot ++ '/' :: (seg ++ '/' :: (slug ++ ['/'])) := by
  obtain ⟨u, hp, h1, h2, hc⟩ := normalize_some_inv h
  obtain ⟨seg, slug, tl, hpath, hseg, hslug, hsegns, hslugns, htl⟩ :=
    profilePathMatch_inv h2
  have hfacts := pyUrlparse_path_facts hp
  refine ⟨seg, slug, hseg, hslug, ?_, ?_, ?_⟩
  · intro x hx
    have hmem : x ∈ u.path := by
      rw [hpath]
      exact List.mem_cons_of_mem _ (List.mem_append_left _ hx)
    exact ⟨hfacts.1 x hmem, hsegns x hx,
      fun he => hfacts.2.1 (he ▸ hmem), fun he => hfacts.2.2 (he ▸ hmem)⟩
  · intro x hx
    have hmem : x ∈ u.path := by
      rw [hpath]
      exact List.mem_cons_of_mem _ (List.mem_append_right _
        (List.mem_cons_of_mem _ (List.mem_append_left _ hx)))
    exact ⟨hfacts.1 x hmem, hslugns x hx,
      fun he => hfacts.2.1 (he ▸ hmem), fun he => hfacts.2.2 (he ▸ hmem)⟩
  · rw [hc, hpath, rstripSlashes_profile seg slug hslug hslugns tl htl]
    simp [List.append_assoc]

/-- Claim C5: normalization is idempotent — whenever it returns a
canonical URL, normalizing that canonical URL returns it unchanged. -/
theorem claim_c5_idempotent (url c : Str)
    (h : normalize_linkedin_profile_url url = some c) :
    normalize_linkedin_profile_url c = some c := by
  obtain ⟨seg, slug, hseg, hslug, hsegch, hslugch, rfl⟩ := normalize_shape h
  have hp := pyUrlparse_canonical seg slug hsegch hslugch
  rw [normalize_eval hp]
  unfold normalizeChecks
  dsimp only
  rw [profilePathMatch_canonical hseg (fun x hx => (hsegch x hx).2.1) hslug
    (fun x hx => (hslugch x hx).2.1)]
  rw [if_neg (by decide)]
  rw [if_neg (by simp)]
  rw [rstripSlashes_profile seg slug hslug (fun x hx => (hslugch x hx).2.1)
    ['/'] (Or.inr rfl)]
  simp [List.append_assoc]

/-- Claim C5 witness: the worked example's link normalizes to the
canonical URL, and the canonical URL normalizes to itself. -/
theorem claim_c5_witness :
    normalize_linkedin_profile_url exLink = some exCanon ∧
    normalize_linkedin_profile_url exCanon = some exCanon :=
  ⟨by decide, claim_c5_idempotent exLink exCanon (by decide)⟩

/-- A kept result's URL comes from a successful normalization. -/
theorem keepResult_some_inv {p : PersonInput} {r : SearchResult} {u : Str}
    (h : keepResult p r = some u) :
    normalize_linkedin_profile_url r.link = some u := by
  unfold keepResult at h
  split at h
  · cases h
  · split at h
    · cases h
    · next url heq =>
      split at h
      · cases h
      · rw [heq, Option.some.inj h]

/-- Claim C4 (amended): every URL in the output of
`find_linkedin_profile_urls` parses to scheme `https`, host exactly
`www.linkedin.com`, a path of shape `/(in|pub)/<single-segment>/` with
exactly one trailing slash — with the `in`/`pub` segment matched up to
ASCII case, since the source regex is compiled with `re.IGNORECASE` —
and no query or fragment.  The claim's literal, case-sensitive reading
of `/(in|pub)/` fails (see the counterexample). -/
theorem claim_c4_amended_output_shape (p : PersonInput)
    (search : Str → List SearchResult) (u : Str)
    (hu : u ∈ find_linkedin_profile_urls p search) :
    outputShape canonicalPathCI u = true := by
  have hmem : u ∈ (search (build_query p)).filterMap (keepResult p) :=
    ((dedupAux_mem_iff _ [] u).mp hu).1
  obtain ⟨r, hr, hkeep⟩ := List.mem_filterMap.mp hmem
  have hnorm := keepResult_some_inv hkeep
  obtain ⟨seg, slug, hseg, hslug, hsegch, hslugch, rfl⟩ := normalize_shape hnorm
  unfold outputShape
  rw [pyUrlparse_canonical seg slug hsegch hslugch]
  show (httpsScheme == httpsScheme && (wwwHost == wwwHost) &&
    canonicalPathCI ('/' :: (seg ++ '/' :: (slug ++ ['/']))) &&
    List.isEmpty [] && List.isEmpty []) = true
  rw [canonicalPathCI_canonical hseg (fun x hx => (hsegch x hx).2.1) hslug
    (fun x hx => (hslugch x hx).2.1)]
  simp

/-- Claim C4 counterexample: with a provider returning a result whose
link has the uppercase path `/IN/x`, the pipeline outputs
`https://www.linkedin.com/IN/x/`, whose path fails the claim's
case-sensitive canonical shape `/(in|pub)/<single-segment>/`. -/
theorem claim_c4_counterexample_uppercase_path :
    find_linkedin_profile_urls xPerson upProvider = [upCanon] ∧
    outputShape specCanonicalPath upCanon = false := by
  exact ⟨by decide, by decide⟩

/-- Claim C4 witness: the worked example's output URL has the amended
canonical shape. -/
theorem claim_c4_witness : outputShape canonicalPathCI exCanon = true :=
  claim_c4_amended_output_shape exPerson exProvider exCanon (by decide)

/-- Claim C6 (amended): for every link whose parsed path does not match
the profile regex — which is compiled with `re.IGNORECASE`, so `in` and
`pub` are matched up to ASCII case — normalization returns no match,
regardless of host.  The claim's literal case-sensitive reading of the
regex fails (see the counterexample). -/
theorem claim_c6_amended_reject_nonprofile_path (url : Str) (u : UrlParts)
    (hp : pyUrlparse url = some u)
    (hmatch : profilePathMatch u.path = false) :
    normalize_linkedin_profile_url url = none := by
  rw [normalize_eval hp]
  unfold normalizeChecks
  rw [hmatch]
  simp

/-- Claim C6 counterexample: the link `https://linkedin.com/PUB/y` has
parsed path `/PUB/y`, which does not match a case-sensitive reading of
`/(in|pub)/<single-segment>/?`, yet normalization accepts it and
returns `https://www.linkedin.com/PUB/y/` rather than no match. -/
theorem claim_c6_counterexample_uppercase_pub :
    pyUrlparse pubLink =
      some ⟨httpsScheme, linkedinDomain, r"/PUB/y".toList, [], [], []⟩ ∧
    specProfilePathMatch (r"/PUB/y".toList) = false ∧
    normalize_linkedin_profile_url pubLink = some pubCanon := by
  exact ⟨by decide, by decide, by decide⟩

/-- Claim C6 witness: the amended theorem applied to the non-profile
paths `/company/foo`, `/posts/123` and `/jobs/1`. -/
theorem claim_c6_witness :
    normalize_linkedin_profile_url companyLink = none ∧
    normalize_linkedin_profile_url postsLink = none ∧
    normalize_linkedin_profile_url jobsLink = none :=
  ⟨claim_c6_amended_reject_nonprofile_path companyLink
      ⟨httpsScheme, wwwHost, r"/company/foo".toList, [], [], []⟩
      (by decide) (by decide),
   claim_c6_amended_reject_nonprofile_path postsLink
      ⟨httpsScheme, wwwHost, r"/posts/123".toList, [], [], []⟩
      (by decide) (by decide),
   claim_c6_amended_reject_nonprofile_path jobsLink
      ⟨httpsScheme, wwwHost, r"/jobs/1".toList, [], [], []⟩
      (by decide) (by decide)⟩
